import Mathlib

/-!
Shallow embedding of `src/orchestration/symbolic/planner.py` (AND/OR tree
planning system) and proofs about it.

Python objects are modelled by indices into a `List TaskNode`; object
identity (`in` on sets of nodes) becomes index equality.  Python `float`
is modelled by `ℚ` (the values occurring in the planner are decimal
literals), `Dict[str, int]` by association lists with the dict's
insertion order, and raised exceptions by `Except PyErr`.  The worklist
loops (`get_ancestors`, `validate_dag`, `_ao_star_search`) terminate in
Python for a counting reason, not a structural one, so they are embedded
with an explicit fuel argument chosen large enough that exhaustion is
unreachable (the bound is justified at each definition).
-/

namespace Planner

deriving instance DecidableEq for Except

/-- The three concrete subclasses of `TaskNode`: `ANDNode`, `ORNode`,
`AtomicNode`. -/
inductive NodeKind
  | andN
  | orN
  | atomicN
deriving DecidableEq

/-- A `TaskNode` object: `task_id`, `preconditions`, `resources`,
`cost`, `risk`, the private `_state` (initialised to `"PENDING"` and
never written by the planner) and the private `_children` list.
`preconditions` and `children` hold references to other nodes, modelled
as indices into the graph list. -/
structure TaskNode where
  id : String
  preconditions : List Nat
  resources : List (String × Int)
  cost : ℚ
  risk : ℚ
  state : String
  children : List Nat
  kind : NodeKind
deriving DecidableEq

/-- A heap of Python `TaskNode` objects: index `i` models a reference to
the `i`-th object. -/
def Graph := List TaskNode

instance : DecidableEq Graph := by unfold Graph; infer_instance

/-- Dicts mapping resource names to integer quantities. -/
def Pool := List (String × Int)

instance : DecidableEq Pool := by unfold Pool; infer_instance

/-- Placeholder object used for out-of-range indices; a faithful model
of a Python run never dereferences such an index. -/
def defaultNode : TaskNode :=
  { id := "", preconditions := [], resources := [], cost := 0, risk := 0,
    state := "PENDING", children := [], kind := NodeKind.atomicN }

/-- Dereference a node index. -/
def getNode (g : Graph) (i : Nat) : TaskNode :=
  List.getD g i defaultNode

/-- `d.get(k)`: first binding of `k` in the dict (Python dicts have
unique keys, so "first" is "the" binding). -/
def dictGet (d : List (String × Int)) (k : String) : Option Int :=
  match d with
  | [] => none
  | (k2, v) :: rest => if k2 = k then some v else dictGet rest k

/-- `d.get(k, dflt)`. -/
def dictGetD (d : List (String × Int)) (k : String) (dflt : Int) : Int :=
  (dictGet d k).getD dflt

/-- `d[k] = v`: overwrite the binding of `k` in place, or append a new
binding (Python dicts keep insertion order). -/
def dictSet (d : List (String × Int)) (k : String) (v : Int) : List (String × Int) :=
  match d with
  | [] => [(k, v)]
  | (k2, v2) :: rest => if k2 = k then (k2, v) :: rest else (k2, v2) :: dictSet rest k v

/-- The exceptions the planner can raise.  `ResourceConflictError`
carries the offending resource, the required amount and the available
amount (the data interpolated into its message); `KeyError` carries the
missing key; `AttributeError` carries the missing attribute name. -/
inductive PyErr
  | circularDependencyError (msg : String)
  | resourceConflictError (res : String) (required : Int) (available : Int)
  | keyError (key : String)
  | attributeError (attr : String)
  | indexError
  | planException (msg : String)
deriving DecidableEq

/-- `PlanningResult` dataclass: `sequence`, `resource_usage`, `cost`,
`risk_factor`. -/
structure PlanningResult where
  sequence : List Nat
  resource_usage : List (String × Int)
  cost : ℚ
  risk_factor : ℚ
deriving DecidableEq

/-! ## TaskNode.get_ancestors and add_child -/

/-- Inner `for parent in current.preconditions` loop of
`get_ancestors`: each parent not yet in the ancestor set is added to the
set and pushed on the stack (head of the list = top of the stack; the
result is used only as a set, so only membership is observable). -/
def pushPreconds : List Nat → List Nat → List Nat → List Nat × List Nat
  | [], anc, stack => (anc, stack)
  | p :: rest, anc, stack =>
      if p ∈ anc then pushPreconds rest anc stack
      else pushPreconds rest (p :: anc) (p :: stack)

/-- Outer `while stack` loop of `get_ancestors`.  Fuel counts loop
iterations (= pops); each iteration pops one entry, and entries are only
pushed when a new node enters the ancestor set, so the supplied fuel
`1 + graphPrecondsSize g + g.length` strictly exceeds the number of
iterations any run can perform and the fuel-exhaustion branch is
unreachable. -/
def ancestorsLoop (g : Graph) : Nat → List Nat → List Nat → List Nat
  | 0, _, anc => anc
  | _ + 1, [], anc => anc
  | fuel + 1, cur :: stack, anc =>
      let s := pushPreconds (getNode g cur).preconditions anc stack
      ancestorsLoop g fuel s.2 s.1

/-- Total number of precondition references in the graph. -/
def graphPrecondsSize (g : Graph) : Nat :=
  List.foldl (fun a n => a + n.preconditions.length) 0 g

/-- `TaskNode.get_ancestors`: worklist walk collecting the transitive
`preconditions` closure of `start` (as a set: only membership is
used). -/
def get_ancestors (g : Graph) (start : Nat) : List Nat :=
  ancestorsLoop g (1 + graphPrecondsSize g + g.length) [start] []

/-- Overwrite node `i` of the graph. -/
def updateNode (g : Graph) (i : Nat) (f : TaskNode → TaskNode) : Graph :=
  List.set g i (f (getNode g i))

/-- `TaskNode.add_child`: raise `CircularDependencyError` when the new
child is already an ancestor of the parent, otherwise append it to the
parent's `_children`.  The returned graph is the post-state of the
mutation; in the error case the state is unchanged (no graph is
returned). -/
def add_child (g : Graph) (parent child : Nat) : Except PyErr Graph :=
  if child ∈ get_ancestors g parent then
    Except.error (PyErr.circularDependencyError
      ("Circular reference detected adding " ++ (getNode g child).id ++ " to " ++ (getNode g parent).id))
  else
    Except.ok (updateNode g parent (fun n => { n with children := n.children ++ [child] }))

/-! ## TaskNode.validate_dag -/

/-- `while stack` loop of `validate_dag`: entries are `(node, path)`
pairs, `visited` is the global pruning set.  Children are pushed in
list order onto the end of the Python stack, so the last child is
popped first; head of the Lean list = top, hence the `reverse`.  Fuel
counts pops; pushes happen only for nodes newly added to `visited`, so
`1 + graphChildrenSize g + g.length` fuel makes exhaustion unreachable. -/
def validateDagLoop (g : Graph) : Nat → List (Nat × List Nat) → List Nat → Except PyErr Unit
  | 0, _, _ => Except.ok ()
  | _ + 1, [], _ => Except.ok ()
  | fuel + 1, (n, path) :: stack, visited =>
      if n ∈ path then
        Except.error (PyErr.circularDependencyError ("Cycle detected at " ++ (getNode g n).id))
      else if n ∈ visited then
        validateDagLoop g fuel stack visited
      else
        validateDagLoop g fuel
          ((List.map (fun c => (c, n :: path)) (getNode g n).children).reverse ++ stack)
          (n :: visited)

/-- Total number of child references in the graph. -/
def graphChildrenSize (g : Graph) : Nat :=
  List.foldl (fun a n => a + n.children.length) 0 g

/-- `TaskNode.validate_dag`: depth-first walk over `_children` carrying
the current path set, raising `CircularDependencyError` when a node on
the current path is revisited. -/
def validate_dag (g : Graph) (start : Nat) : Except PyErr Unit :=
  validateDagLoop g (1 + graphChildrenSize g + g.length) [(start, [])] []

/-! ## decompose -/

/-- `child.validate_resources(available_resources)`: neither `TaskNode`
nor any of its subclasses defines a method named `validate_resources`,
so the attribute lookup itself raises `AttributeError` before any call
happens. -/
def validate_resources (_g : Graph) (_child : Nat) (_pool : Pool) : Except PyErr Unit :=
  Except.error (PyErr.attributeError "validate_resources")

/-- `for child in self._children` loop of `ANDNode.decompose`: feasible
children are appended to `options`; `except ResourceConflictError:
continue` swallows only that exception, any other one propagates. -/
def decomposeAndLoop (g : Graph) (pool : Pool) : List Nat → List Nat → Except PyErr (List Nat)
  | [], acc => Except.ok acc
  | c :: rest, acc =>
      match validate_resources g c pool with
      | Except.ok _ => decomposeAndLoop g pool rest (acc ++ [c])
      | Except.error (PyErr.resourceConflictError _ _ _) => decomposeAndLoop g pool rest acc
      | Except.error e => Except.error e

/-- `for child in self._children` loop of `ORNode.decompose`: each
feasible child yields a singleton alternative. -/
def decomposeOrLoop (g : Graph) (pool : Pool) : List Nat → List (List Nat) → Except PyErr (List (List Nat))
  | [], acc => Except.ok acc
  | c :: rest, acc =>
      match validate_resources g c pool with
      | Except.ok _ => decomposeOrLoop g pool rest (acc ++ [[c]])
      | Except.error (PyErr.resourceConflictError _ _ _) => decomposeOrLoop g pool rest acc
      | Except.error e => Except.error e

/-- `node.decompose(available_resources)`, dispatched on the concrete
class.  `ANDNode` returns `[options] if options else []`; `ORNode`
returns the list of alternatives; `AtomicNode` defines no `decompose`
method at all, so the attribute lookup raises `AttributeError` (the
search never reaches this case: atomic nodes are skipped first). -/
def decompose (g : Graph) (n : Nat) (pool : Pool) : Except PyErr (List (List Nat)) :=
  match (getNode g n).kind with
  | NodeKind.andN =>
      match decomposeAndLoop g pool (getNode g n).children [] with
      | Except.error e => Except.error e
      | Except.ok opts => Except.ok (if opts = [] then [] else [opts])
  | NodeKind.orN =>
      match decomposeOrLoop g pool (getNode g n).children [] with
      | Except.error e => Except.error e
      | Except.ok alts => Except.ok alts
  | NodeKind.atomicN => Except.error (PyErr.attributeError "decompose")

/-- `node.is_atomic()`. -/
def is_atomic (g : Graph) (n : Nat) : Bool :=
  (getNode g n).kind = NodeKind.atomicN

/-! ## PlanningGraph._evaluate_option -/

/-- `for res, amount in node.resources.items()` loop: update the
running dict, then check it against the pool.  On a violation the
message formatting evaluates `self.resource_pool[res]`, which raises
`KeyError` when `res` is absent from the pool; only when it is present
is the `ResourceConflictError` actually constructed. -/
def evalResLoop (pool : Pool) : List (String × Int) → List (String × Int) → Except PyErr (List (String × Int))
  | [], req => Except.ok req
  | (res, amount) :: rest, req =>
      let newAmt := dictGetD req res 0 + amount
      if dictGetD pool res 0 < newAmt then
        match dictGet pool res with
        | some avail => Except.error (PyErr.resourceConflictError res newAmt avail)
        | none => Except.error (PyErr.keyError res)
      else evalResLoop pool rest (dictSet req res newAmt)

/-- `for node in nodes` loop of `_evaluate_option`: non-`PENDING` nodes
are skipped; for the rest, resources are accumulated and checked, then
cost is added and risk maxed. -/
def evalNodesLoop (g : Graph) (pool : Pool) :
    List Nat → List (String × Int) → ℚ → ℚ → Except PyErr (List (String × Int) × ℚ × ℚ)
  | [], req, cost, risk => Except.ok (req, cost, risk)
  | n :: rest, req, cost, risk =>
      let node := getNode g n
      if node.state ≠ "PENDING" then evalNodesLoop g pool rest req cost risk
      else
        match evalResLoop pool node.resources req with
        | Except.error e => Except.error e
        | Except.ok req2 => evalNodesLoop g pool rest req2 (cost + node.cost) (max risk node.risk)

/-- `PlanningGraph._evaluate_option`. -/
def evaluate_option (g : Graph) (pool : Pool) (nodes : List Nat) : Except PyErr PlanningResult :=
  match evalNodesLoop g pool nodes [] 0 0 with
  | Except.error e => Except.error e
  | Except.ok (req, cost, risk) =>
      Except.ok { sequence := nodes, resource_usage := req, cost := cost, risk_factor := risk }

/-! ## PlanningGraph._ao_star_search -/

/-- `heapq.heappop` on a list of `(cost, node)` entries: returns an
entry with minimal cost and the rest of the heap.  The exact tie-break
and internal heap order of `heapq` are unobservable here because the
search never pushes onto a nonempty heap (`decompose` always raises or
returns no options), so the heap never holds more than one entry. -/
def popMin : List (ℚ × Nat) → Option ((ℚ × Nat) × List (ℚ × Nat))
  | [] => none
  | e :: rest =>
      match popMin rest with
      | none => some (e, [])
      | some (m, rem) => if e.1 ≤ m.1 then some (e, rest) else some (m, e :: rem)

/-- `for option in decompositions` loop: evaluate each option, skip it
on `ResourceConflictError` or when its risk exceeds the threshold,
otherwise accept it when it beats the current best, retag its cost with
`total_cost` and push `(total_cost, option[-1])` (`option[-1]` raises
`IndexError` on an empty option). -/
def scoreOptions (g : Graph) (pool : Pool) (t : ℚ) (currentCost : ℚ) :
    List (List Nat) → Option PlanningResult → List (ℚ × Nat) →
    Except PyErr (Option PlanningResult × List (ℚ × Nat))
  | [], best, heap => Except.ok (best, heap)
  | opt :: rest, best, heap =>
      match evaluate_option g pool opt with
      | Except.error (PyErr.resourceConflictError _ _ _) =>
          scoreOptions g pool t currentCost rest best heap
      | Except.error e => Except.error e
      | Except.ok plan =>
          if t < plan.risk_factor then scoreOptions g pool t currentCost rest best heap
          else
            let total := currentCost + plan.cost
            let better := match best with
              | none => true
              | some b => decide (total < b.cost)
            if better then
              match opt.getLast? with
              | none => Except.error PyErr.indexError
              | some lastN =>
                  scoreOptions g pool t currentCost rest
                    (some { plan with cost := total }) (heap ++ [(total, lastN)])
            else scoreOptions g pool t currentCost rest best heap

/-- `while heap` loop of `_ao_star_search`.  Fuel counts pops; the
supplied fuel `g.length + 2` is unreachable because the heap starts
with one entry and (provably) nothing is ever pushed, so the loop pops
at most once. -/
def searchLoop (g : Graph) (pool : Pool) (t : ℚ) :
    Nat → List (ℚ × Nat) → Option PlanningResult → Except PyErr (Option PlanningResult)
  | 0, _, best => Except.ok best
  | fuel + 1, heap, best =>
      match popMin heap with
      | none => Except.ok best
      | some ((currentCost, n), rest) =>
          if is_atomic g n then searchLoop g pool t fuel rest best
          else
            match decompose g n pool with
            | Except.error e => Except.error e
            | Except.ok decs =>
                match scoreOptions g pool t currentCost decs best rest with
                | Except.error e => Except.error e
                | Except.ok (best2, heap2) => searchLoop g pool t fuel heap2 best2

/-- Fuel for the search loop; see `searchLoop`. -/
def searchFuel (g : Graph) : Nat := g.length + 2

/-- `PlanningGraph._ao_star_search`: run the loop from `[(0, root)]`
with no best plan; raise the generic `PlanException` when the heap
empties with `best_plan` never set. -/
def ao_star_search (g : Graph) (root : Nat) (pool : Pool) (t : ℚ) : Except PyErr PlanningResult :=
  match searchLoop g pool t (searchFuel g) [((0 : ℚ), root)] none with
  | Except.error e => Except.error e
  | Except.ok none => Except.error (PyErr.planException "No valid plan found within constraints")
  | Except.ok (some p) => Except.ok p

/-- `PlanningGraph.generate_plan`: pre-flight `validate_dag`, then the
search.  `CircularDependencyError` is caught, logged and re-raised, so
it propagates unchanged; nothing else is caught. -/
def generate_plan (g : Graph) (root : Nat) (pool : Pool) (t : ℚ) : Except PyErr PlanningResult :=
  match validate_dag g root with
  | Except.error e => Except.error e
  | Except.ok _ => ao_star_search g root pool t

/-- The `PlanningGraph` object: root reference, a `.copy()` of the
resource pool, risk threshold. -/
structure PlanningGraph where
  root : Nat
  resource_pool : Pool
  risk_threshold : ℚ

/-- `dict.copy()`: a fresh dict with the same bindings. -/
def poolCopy (p : Pool) : Pool := List.map (fun x => x) p

/-- `PlanningGraph.__init__(root, resource_pool, risk_threshold)`. -/
def mkPlanningGraph (root : Nat) (pool : Pool) (t : ℚ) : PlanningGraph :=
  { root := root, resource_pool := poolCopy pool, risk_threshold := t }

/-- `planner.generate_plan()` on a constructed `PlanningGraph`. -/
def PlanningGraph.generatePlan (pg : PlanningGraph) (g : Graph) : Except PyErr PlanningResult :=
  generate_plan g pg.root pg.resource_pool pg.risk_threshold

/-! ## Specification-side definitions

These follow the words of the specification ("the sum of `resources[r]`
over all nodes in `option` whose `status == Pending`", etc.), to be
compared with the evaluator embedded above. -/

/-- The indices in `nodes` whose node is `Pending`. -/
def pendingIdx (g : Graph) (nodes : List Nat) : List Nat :=
  List.filter (fun i => (getNode g i).state == "PENDING") nodes

/-- Spec: per-resource sum of `resources[res]` over the `Pending` nodes
of the option. -/
def specUsage (g : Graph) (nodes : List Nat) (res : String) : Int :=
  (List.map (fun i => dictGetD (getNode g i).resources res 0) (pendingIdx g nodes)).sum

/-- Spec: sum of `cost` over the `Pending` nodes of the option. -/
def specCost (g : Graph) (nodes : List Nat) : ℚ :=
  (List.map (fun i => (getNode g i).cost) (pendingIdx g nodes)).sum

/-- The risks of the `Pending` nodes of the option. -/
def specRisks (g : Graph) (nodes : List Nat) : List ℚ :=
  List.map (fun i => (getNode g i).risk) (pendingIdx g nodes)

/-- Sum of the amounts bound to `res` in an association list (equals the
dict lookup when keys are unique, i.e. for every real Python dict). -/
def entriesSum : List (String × Int) → String → Int
  | [], _ => 0
  | (k, v) :: rest, res => (if k = res then v else 0) + entriesSum rest res

/-! ## Dictionary lemmas -/

theorem dictGet_dictSet_self (d : List (String × Int)) (k : String) (v : Int) :
    dictGet (dictSet d k v) k = some v := by
  induction d with
  | nil => simp [dictSet, dictGet]
  | cons e rest ih =>
      obtain ⟨k2, v2⟩ := e
      by_cases h : k2 = k
      · simp [dictSet, dictGet, h]
      · simp [dictSet, dictGet, h, ih]

theorem dictGet_dictSet_ne (d : List (String × Int)) (k k' : String) (v : Int)
    (h : k ≠ k') : dictGet (dictSet d k v) k' = dictGet d k' := by
  induction d with
  | nil => simp [dictSet, dictGet, h]
  | cons e rest ih =>
      obtain ⟨k2, v2⟩ := e
      by_cases h2 : k2 = k
      · subst h2; simp [dictSet, dictGet, h]
      · simp [dictSet, dictGet, h2, ih]

theorem dictGetD_dictSet_self (d : List (String × Int)) (k : String) (v dflt : Int) :
    dictGetD (dictSet d k v) k dflt = v := by
  simp [dictGetD, dictGet_dictSet_self]

theorem dictGetD_dictSet_ne (d : List (String × Int)) (k k' : String) (v dflt : Int)
    (h : k ≠ k') : dictGetD (dictSet d k v) k' dflt = dictGetD d k' dflt := by
  simp [dictGetD, dictGet_dictSet_ne d k k' v h]


/-! ## Evaluator lemmas -/

theorem evalResLoop_ok_sum (pool : Pool) :
    ∀ (entries : List (String × Int)) (req req' : List (String × Int)),
      evalResLoop pool entries req = Except.ok req' →
      ∀ res, dictGetD req' res 0 = dictGetD req res 0 + entriesSum entries res := by
  intro entries
  induction entries with
  | nil =>
      intro req req' h res
      simp only [evalResLoop, Except.ok.injEq] at h
      subst h
      simp [entriesSum]
  | cons e rest ih =>
      intro req req' h res
      obtain ⟨k, v⟩ := e
      simp only [evalResLoop] at h
      split at h
      · split at h <;> exact absurd h (by simp)
      · have h2 := ih _ _ h res
        have hc : entriesSum ((k, v) :: rest) res = (if k = res then v else 0) + entriesSum rest res := by
          simp [entriesSum]
        by_cases hk : k = res
        · subst hk
          rw [h2, dictGetD_dictSet_self, hc, if_pos rfl]
          ring
        · rw [h2, dictGetD_dictSet_ne _ _ _ _ _ hk, hc, if_neg hk]
          ring

theorem evalResLoop_err (pool : Pool) :
    ∀ (entries : List (String × Int)) (req : List (String × Int)) (e : PyErr),
      evalResLoop pool entries req = Except.error e →
      (∃ res amt avail, dictGet pool res = some avail ∧
          e = PyErr.resourceConflictError res amt avail ∧ avail < amt) ∨
      (∃ res, dictGet pool res = none ∧ e = PyErr.keyError res) := by
  intro entries
  induction entries with
  | nil => intro req e h; exact absurd h (by simp [evalResLoop])
  | cons ent rest ih =>
      intro req e h
      obtain ⟨k, v⟩ := ent
      simp only [evalResLoop] at h
      split at h
      · rename_i hlt
        split at h
        · rename_i avail hget
          left
          refine ⟨k, dictGetD req k 0 + v, avail, hget, (Except.error.inj h).symm, ?_⟩
          have hpd : dictGetD pool k 0 = avail := by simp [dictGetD, hget]
          omega
        · rename_i hget
          right
          exact ⟨k, hget, (Except.error.inj h).symm⟩
      · exact ih _ _ h

theorem pendingIdx_cons_skip (g : Graph) (n : Nat) (rest : List Nat)
    (h : (getNode g n).state ≠ "PENDING") :
    pendingIdx g (n :: rest) = pendingIdx g rest := by
  simp [pendingIdx, List.filter_cons, h]

theorem pendingIdx_cons_pending (g : Graph) (n : Nat) (rest : List Nat)
    (h : (getNode g n).state = "PENDING") :
    pendingIdx g (n :: rest) = n :: pendingIdx g rest := by
  simp [pendingIdx, List.filter_cons, h]

theorem evalNodesLoop_ok (g : Graph) (pool : Pool) :
    ∀ (nodes : List Nat) (req req' : List (String × Int)) (cost cost' risk risk' : ℚ),
      evalNodesLoop g pool nodes req cost risk = Except.ok (req', cost', risk') →
      (∀ res, dictGetD req' res 0 =
          dictGetD req res 0 +
            (List.map (fun i => entriesSum (getNode g i).resources res) (pendingIdx g nodes)).sum) ∧
      cost' = cost + (List.map (fun i => (getNode g i).cost) (pendingIdx g nodes)).sum ∧
      risk' = List.foldl max risk (specRisks g nodes) := by
  intro nodes
  induction nodes with
  | nil =>
      intro req req' cost cost' risk risk' h
      simp only [evalNodesLoop, Except.ok.injEq, Prod.mk.injEq] at h
      obtain ⟨h1, h2, h3⟩ := h
      subst h1; subst h2; subst h3
      simp [pendingIdx, specRisks]
  | cons n rest ih =>
      intro req req' cost cost' risk risk' h
      simp only [evalNodesLoop] at h
      split at h
      · rename_i hstate
        have hres := ih _ _ _ _ _ _ h
        have hpend := pendingIdx_cons_skip g n rest hstate
        have hrisk : specRisks g (n :: rest) = specRisks g rest := by
          simp [specRisks, hpend]
        refine ⟨?_, ?_, ?_⟩
        · intro res; rw [hpend]; exact hres.1 res
        · rw [hpend]; exact hres.2.1
        · rw [hrisk]; exact hres.2.2
      · rename_i hstate
        have hstate2 : (getNode g n).state = "PENDING" := not_not.mp hstate
        have hpend := pendingIdx_cons_pending g n rest hstate2
        have hrisk : specRisks g (n :: rest) = (getNode g n).risk :: specRisks g rest := by
          simp [specRisks, hpend]
        match hloop : evalResLoop pool (getNode g n).resources req with
        | Except.error e => rw [hloop] at h; exact absurd h (by simp)
        | Except.ok req2 =>
            rw [hloop] at h
            have hres := ih _ _ _ _ _ _ h
            have hsum := evalResLoop_ok_sum pool _ _ _ hloop
            refine ⟨?_, ?_, ?_⟩
            · intro res
              rw [hres.1 res, hsum res, hpend]
              simp only [List.map_cons, List.sum_cons]
              ring
            · rw [hres.2.1, hpend]
              simp only [List.map_cons, List.sum_cons]
              ring
            · rw [hres.2.2, hrisk]
              simp [List.foldl_cons]

theorem evalNodesLoop_err (g : Graph) (pool : Pool) :
    ∀ (nodes : List Nat) (req : List (String × Int)) (cost risk : ℚ) (e : PyErr),
      evalNodesLoop g pool nodes req cost risk = Except.error e →
      (∃ res amt avail, dictGet pool res = some avail ∧
          e = PyErr.resourceConflictError res amt avail ∧ avail < amt) ∨
      (∃ res, dictGet pool res = none ∧ e = PyErr.keyError res) := by
  intro nodes
  induction nodes with
  | nil => intro req cost risk e h; exact absurd h (by simp [evalNodesLoop])
  | cons n rest ih =>
      intro req cost risk e h
      simp only [evalNodesLoop] at h
      split at h
      · exact ih _ _ _ _ h
      · match hloop : evalResLoop pool (getNode g n).resources req with
        | Except.error e2 =>
            rw [hloop] at h
            have he : e2 = e := Except.error.inj h
            subst he
            exact evalResLoop_err pool _ _ _ hloop
        | Except.ok req2 =>
            rw [hloop] at h
            exact ih _ _ _ _ h

/-- Risk accumulation: the fold of `max` bounds every element from
above … -/
theorem foldl_max_le_elem (L : List ℚ) :
    ∀ (a : ℚ), (a ≤ List.foldl max a L) ∧ ∀ x ∈ L, x ≤ List.foldl max a L := by
  induction L with
  | nil => intro a; simp
  | cons b rest ih =>
      intro a
      have h1 := ih (max a b)
      refine ⟨le_trans (le_max_left a b) h1.1, ?_⟩
      intro x hx
      rcases List.mem_cons.mp hx with hxa | hxr
      · rw [hxa]
        exact le_trans (le_max_right a b) h1.1
      · exact h1.2 x hxr

/-- … and is either the seed or one of the elements. -/
theorem foldl_max_mem (L : List ℚ) :
    ∀ (a : ℚ), List.foldl max a L = a ∨ List.foldl max a L ∈ L := by
  induction L with
  | nil => intro a; simp
  | cons b rest ih =>
      intro a
      rcases ih (max a b) with h | h
      · rcases max_choice a b with hm | hm
        · left; rw [List.foldl_cons, h, hm]
        · right; rw [List.foldl_cons, h, hm]; exact List.mem_cons_self b rest
      · right; exact List.mem_cons_of_mem b h

/-- A resource absent from every entry contributes nothing. -/
theorem entriesSum_zero_of_not_mem (entries : List (String × Int)) (res : String)
    (h : res ∉ List.map Prod.fst entries) : entriesSum entries res = 0 := by
  induction entries with
  | nil => simp [entriesSum]
  | cons e rest ih =>
      obtain ⟨k, v⟩ := e
      simp only [List.map_cons, List.mem_cons] at h
      push_neg at h
      rw [show entriesSum ((k, v) :: rest) res = (if k = res then v else 0) + entriesSum rest res
        from by simp [entriesSum]]
      rw [if_neg (fun hk => h.1 hk.symm), ih h.2]
      simp

/-- For Python dicts (unique keys) the per-resource entry sum is the
dict lookup. -/
theorem entriesSum_eq_dictGetD (entries : List (String × Int)) (res : String)
    (h : (List.map Prod.fst entries).Nodup) :
    entriesSum entries res = dictGetD entries res 0 := by
  induction entries with
  | nil => simp [entriesSum, dictGetD, dictGet]
  | cons e rest ih =>
      obtain ⟨k, v⟩ := e
      simp only [List.map_cons, List.nodup_cons] at h
      by_cases hk : k = res
      · subst hk
        have hz := entriesSum_zero_of_not_mem rest k h.1
        simp [entriesSum, dictGetD, dictGet, hz]
      · have hr := ih h.2
        simp [entriesSum, dictGetD, dictGet, hk, hr]

theorem evaluate_option_ok (g : Graph) (pool : Pool) (nodes : List Nat) (r : PlanningResult)
    (h : evaluate_option g pool nodes = Except.ok r) :
    r.sequence = nodes ∧
    (∀ res, dictGetD r.resource_usage res 0 =
        (List.map (fun i => entriesSum (getNode g i).resources res) (pendingIdx g nodes)).sum) ∧
    r.cost = specCost g nodes ∧
    r.risk_factor = List.foldl max 0 (specRisks g nodes) := by
  unfold evaluate_option at h
  match hloop : evalNodesLoop g pool nodes [] 0 0 with
  | Except.error e => rw [hloop] at h; exact absurd h (by simp)
  | Except.ok (req, cost, risk) =>
      rw [hloop] at h
      have hr := evalNodesLoop_ok g pool nodes _ _ _ _ _ _ hloop
      have hinj := Except.ok.inj h
      subst hinj
      refine ⟨rfl, ?_, ?_, ?_⟩
      · intro res
        have := hr.1 res
        simpa [dictGetD, dictGet] using this
      · have := hr.2.1
        simpa [specCost] using this
      · exact hr.2.2

theorem evaluate_option_err (g : Graph) (pool : Pool) (nodes : List Nat) (e : PyErr)
    (h : evaluate_option g pool nodes = Except.error e) :
    (∃ res amt avail, dictGet pool res = some avail ∧
        e = PyErr.resourceConflictError res amt avail ∧ avail < amt) ∨
    (∃ res, dictGet pool res = none ∧ e = PyErr.keyError res) := by
  unfold evaluate_option at h
  match hloop : evalNodesLoop g pool nodes [] 0 0 with
  | Except.error e2 =>
      rw [hloop] at h
      have he : e2 = e := Except.error.inj h
      subst he
      exact evalNodesLoop_err g pool nodes _ _ _ _ hloop
  | Except.ok (req, cost, risk) => rw [hloop] at h; exact absurd h (by simp)

/-! ## Search characterization lemmas

`decompose` can only ever raise `AttributeError` or return an empty
option list, because `validate_resources` does not exist; everything the
best-first engine can do follows from that. -/

theorem decompose_atomic (g : Graph) (n : Nat) (pool : Pool)
    (h : (getNode g n).kind = NodeKind.atomicN) :
    decompose g n pool = Except.error (PyErr.attributeError "decompose") := by
  simp [decompose, h]

theorem decompose_no_children (g : Graph) (n : Nat) (pool : Pool)
    (h : (getNode g n).kind ≠ NodeKind.atomicN) (hc : (getNode g n).children = []) :
    decompose g n pool = Except.ok [] := by
  cases hk : (getNode g n).kind with
  | atomicN => exact absurd hk h
  | andN => simp [decompose, hk, hc, decomposeAndLoop]
  | orN => simp [decompose, hk, hc, decomposeOrLoop]

theorem decompose_with_children (g : Graph) (n : Nat) (pool : Pool)
    (h : (getNode g n).kind ≠ NodeKind.atomicN) (c : Nat) (cs : List Nat)
    (hc : (getNode g n).children = c :: cs) :
    decompose g n pool = Except.error (PyErr.attributeError "validate_resources") := by
  cases hk : (getNode g n).kind with
  | atomicN => exact absurd hk h
  | andN => simp [decompose, hk, hc, decomposeAndLoop, validate_resources]
  | orN => simp [decompose, hk, hc, decomposeOrLoop, validate_resources]

theorem searchLoop_nil (g : Graph) (pool : Pool) (t : ℚ) (fuel : Nat)
    (best : Option PlanningResult) :
    searchLoop g pool t fuel [] best = Except.ok best := by
  cases fuel with
  | zero => rfl
  | succ f => simp [searchLoop, popMin]

/-- The engine's whole behaviour on any input: the pre-flight passes or
raises; if it passes, a run from an atomic or childless root drains the
queue immediately and raises the generic `PlanException`, and any other
root hits the missing `validate_resources` attribute. -/
theorem ao_star_search_char (g : Graph) (root : Nat) (pool : Pool) (t : ℚ) :
    ao_star_search g root pool t =
      if (getNode g root).kind = NodeKind.atomicN ∨ (getNode g root).children = [] then
        Except.error (PyErr.planException "No valid plan found within constraints")
      else Except.error (PyErr.attributeError "validate_resources") := by
  unfold ao_star_search searchFuel
  rw [show g.length + 2 = (g.length + 1) + 1 from rfl]
  by_cases hk : (getNode g root).kind = NodeKind.atomicN
  · rw [if_pos (Or.inl hk)]
    have hatomic : is_atomic g root = true := by simp [is_atomic, hk]
    simp [searchLoop, popMin, hatomic, searchLoop_nil]
  · by_cases hc : (getNode g root).children = []
    · rw [if_pos (Or.inr hc)]
      have hatomic : ¬ is_atomic g root = true := by simp [is_atomic, hk]
      simp [searchLoop, popMin, hatomic, decompose_no_children g root pool hk hc,
        scoreOptions, searchLoop_nil]
    · rw [if_neg (by tauto)]
      have hatomic : ¬ is_atomic g root = true := by simp [is_atomic, hk]
      match hl : (getNode g root).children with
      | [] => exact absurd hl hc
      | c :: cs =>
          simp [searchLoop, popMin, hatomic, decompose_with_children g root pool hk c cs hl]

theorem validateDagLoop_shape (g : Graph) :
    ∀ (fuel : Nat) (stack : List (Nat × List Nat)) (visited : List Nat),
      validateDagLoop g fuel stack visited = Except.ok () ∨
      ∃ m, validateDagLoop g fuel stack visited = Except.error (PyErr.circularDependencyError m) := by
  intro fuel
  induction fuel with
  | zero => intro stack visited; left; rfl
  | succ f ih =>
      intro stack visited
      match stack with
      | [] => left; rfl
      | (n, path) :: rest =>
          by_cases hp : n ∈ path
          · right
            refine ⟨"Cycle detected at " ++ (getNode g n).id, ?_⟩
            simp [validateDagLoop, hp]
          · by_cases hv : n ∈ visited
            · simpa [validateDagLoop, hp, hv] using ih rest visited
            · simpa [validateDagLoop, hp, hv] using ih _ _

/-- `validate_dag` either passes or raises `CircularDependencyError`. -/
theorem validate_dag_shape (g : Graph) (s : Nat) :
    validate_dag g s = Except.ok () ∨
    ∃ m, validate_dag g s = Except.error (PyErr.circularDependencyError m) := by
  unfold validate_dag
  exact validateDagLoop_shape g _ _ _

theorem decompose_err_shape (g : Graph) (n : Nat) (pool : Pool) (e : PyErr)
    (h : decompose g n pool = Except.error e) :
    e = PyErr.attributeError "decompose" ∨ e = PyErr.attributeError "validate_resources" := by
  by_cases hk : (getNode g n).kind = NodeKind.atomicN
  · rw [decompose_atomic g n pool hk] at h
    left; exact (Except.error.inj h).symm
  · match hc : (getNode g n).children with
    | [] =>
        rw [decompose_no_children g n pool hk hc] at h
        exact absurd h (by simp)
    | c :: cs =>
        rw [decompose_with_children g n pool hk c cs hc] at h
        right; exact (Except.error.inj h).symm

theorem scoreOptions_err_shape (g : Graph) (pool : Pool) (t : ℚ) (cc : ℚ) :
    ∀ (opts : List (List Nat)) (best : Option PlanningResult) (heap : List (ℚ × Nat)) (e : PyErr),
      scoreOptions g pool t cc opts best heap = Except.error e →
      (∃ k, e = PyErr.keyError k) ∨ e = PyErr.indexError := by
  intro opts
  induction opts with
  | nil => intro best heap e h; exact absurd h (by simp [scoreOptions])
  | cons opt rest ih =>
      intro best heap e h
      match hev : evaluate_option g pool opt with
      | Except.error e2 =>
          rcases evaluate_option_err g pool opt e2 hev with ⟨r, a, v, _, he2, _⟩ | ⟨k, _, he2⟩
          · subst he2
            simp only [scoreOptions, hev] at h
            exact ih _ _ _ h
          · subst he2
            simp only [scoreOptions, hev] at h
            left
            exact ⟨k, (Except.error.inj h).symm⟩
      | Except.ok plan =>
          simp only [scoreOptions, hev] at h
          split at h
          · exact ih _ _ _ h
          · split at h
            · match hl : opt.getLast? with
              | none =>
                  simp only [hl] at h
                  right; exact (Except.error.inj h).symm
              | some lastN =>
                  simp only [hl] at h
                  exact ih _ _ _ h
            · exact ih _ _ _ h

theorem searchLoop_err_shape (g : Graph) (pool : Pool) (t : ℚ) :
    ∀ (fuel : Nat) (heap : List (ℚ × Nat)) (best : Option PlanningResult) (e : PyErr),
      searchLoop g pool t fuel heap best = Except.error e →
      (∃ a, e = PyErr.attributeError a) ∨ (∃ k, e = PyErr.keyError k) ∨ e = PyErr.indexError := by
  intro fuel
  induction fuel with
  | zero => intro heap best e h; exact absurd h (by simp [searchLoop])
  | succ f ih =>
      intro heap best e h
      match hpop : popMin heap with
      | none =>
          simp only [searchLoop, hpop] at h
          exact absurd h (by simp)
      | some ((cc, n), rest) =>
          simp only [searchLoop, hpop] at h
          split at h
          · exact ih _ _ _ h
          · match hdec : decompose g n pool with
            | Except.error e2 =>
                simp only [hdec] at h
                have he : e2 = e := Except.error.inj h
                subst he
                left
                rcases decompose_err_shape g n pool e2 hdec with h1 | h1 <;> exact ⟨_, h1⟩
            | Except.ok decs =>
                simp only [hdec] at h
                match hsc : scoreOptions g pool t cc decs best rest with
                | Except.error e2 =>
                    simp only [hsc] at h
                    have he : e2 = e := Except.error.inj h
                    subst he
                    rcases scoreOptions_err_shape g pool t cc decs best rest e2 hsc with ⟨k, hk⟩ | hk
                    · exact Or.inr (Or.inl ⟨k, hk⟩)
                    · exact Or.inr (Or.inr hk)
                | Except.ok pair =>
                    obtain ⟨b2, h2⟩ := pair
                    simp only [hsc] at h
                    exact ih _ _ _ h

/-- Predicate on run outcomes: "a `ResourceConflictError` escaped". -/
def isResourceConflictRes : Except PyErr PlanningResult → Bool
  | Except.error (PyErr.resourceConflictError _ _ _) => true
  | _ => false

/-! ## Concrete scenarios -/

/-- Scenario A tree from the specification (also the source file's
`__main__` example): indices 0 Mission, 1 AcquireData, 2 Sensor, 3 API,
4 ProcessData, 5 Clean, 6 Transform. -/
def scenarioA : Graph :=
  [ { id := "Mission", preconditions := [], resources := [("cpu", 2)], cost := 0, risk := 0,
      state := "PENDING", children := [1, 4], kind := NodeKind.andN },
    { id := "AcquireData", preconditions := [], resources := [("memory", 4096)], cost := 0, risk := 0,
      state := "PENDING", children := [2, 3], kind := NodeKind.orN },
    { id := "Sensor", preconditions := [], resources := [("cpu", 1), ("memory", 2048)], cost := 50, risk := 1/5,
      state := "PENDING", children := [], kind := NodeKind.atomicN },
    { id := "API", preconditions := [], resources := [("cpu", 2), ("memory", 1024)], cost := 30, risk := 2/5,
      state := "PENDING", children := [], kind := NodeKind.atomicN },
    { id := "ProcessData", preconditions := [], resources := [("cpu", 4), ("gpu", 1)], cost := 0, risk := 0,
      state := "PENDING", children := [5, 6], kind := NodeKind.andN },
    { id := "Clean", preconditions := [], resources := [("memory", 512)], cost := 10, risk := 0,
      state := "PENDING", children := [], kind := NodeKind.atomicN },
    { id := "Transform", preconditions := [], resources := [("cpu", 2)], cost := 20, risk := 0,
      state := "PENDING", children := [], kind := NodeKind.atomicN } ]

/-- Scenario A resource pool. -/
def scenarioAPool : Pool := [("cpu", 8), ("memory", 16384), ("gpu", 1)]

/-- C1: End-to-end scenario A.  The spec expects a successful Plan
Result of cost `30+10+20 = 60` with risk factor at most `0.7`; the code
instead hits the missing `validate_resources` method as soon as the
root is expanded, so `generate_plan` raises `AttributeError` and no
Plan Result is ever produced. -/
theorem c1_scenarioA_raises_attribute_error :
    generate_plan scenarioA 0 scenarioAPool (7/10) =
      Except.error (PyErr.attributeError "validate_resources") := by decide

/-- Composite-All node with a single, trivially satisfiable child. -/
def andDemo : Graph :=
  [ { id := "All2", preconditions := [], resources := [], cost := 0, risk := 0,
      state := "PENDING", children := [1], kind := NodeKind.andN },
    { id := "Step2", preconditions := [], resources := [("cpu", 1)], cost := 0, risk := 0,
      state := "PENDING", children := [], kind := NodeKind.atomicN } ]

/-- C2: a Composite-All node with one individually feasible child
should decompose to exactly one option containing that child; the code
instead raises `AttributeError` (the per-child feasibility call names a
method that does not exist), so no option list is ever returned. -/
theorem c2_and_decompose_raises :
    decompose andDemo 0 [("cpu", 8)] =
      Except.error (PyErr.attributeError "validate_resources") := by decide

/-- Two freshly constructed nodes with no preconditions. -/
def cycleDemo : Graph :=
  [ { id := "A3", preconditions := [], resources := [], cost := 0, risk := 0,
      state := "PENDING", children := [], kind := NodeKind.andN },
    { id := "B3", preconditions := [], resources := [], cost := 0, risk := 0,
      state := "PENDING", children := [], kind := NodeKind.andN } ]

/-- `cycleDemo` after `add_child(A3, B3)`. -/
def cycleDemoA : Graph :=
  [ { id := "A3", preconditions := [], resources := [], cost := 0, risk := 0,
      state := "PENDING", children := [1], kind := NodeKind.andN },
    { id := "B3", preconditions := [], resources := [], cost := 0, risk := 0,
      state := "PENDING", children := [], kind := NodeKind.andN } ]

/-- `cycleDemoA` after `add_child(B3, A3)`. -/
def cycleDemoB : Graph :=
  [ { id := "A3", preconditions := [], resources := [], cost := 0, risk := 0,
      state := "PENDING", children := [1], kind := NodeKind.andN },
    { id := "B3", preconditions := [], resources := [], cost := 0, risk := 0,
      state := "PENDING", children := [0], kind := NodeKind.andN } ]

/-- C3: the claim says the insertion-time guard and the pre-flight
guard agree, i.e. `validate_dag` never raises on a tree built only
through `add_child`.  They do not: `add_child` checks ancestry over
`preconditions`, which `add_child` itself never modifies, so inserting
`B3` under `A3` and then `A3` under `B3` both succeed, and the
pre-flight walk over `_children` then detects the cycle and raises. -/
theorem c3_add_child_guard_disagrees_with_validate_dag :
    add_child cycleDemo 0 1 = Except.ok cycleDemoA ∧
    add_child cycleDemoA 1 0 = Except.ok cycleDemoB ∧
    validate_dag cycleDemoB 0 =
      Except.error (PyErr.circularDependencyError "Cycle detected at A3") := by decide

/-- Scenario C tree: an Composite-Any root offering a cheap leaf of
risk `0.9` and a safer, costlier leaf of risk `0.1`. -/
def scenarioC : Graph :=
  [ { id := "Choice", preconditions := [], resources := [], cost := 0, risk := 0,
      state := "PENDING", children := [1, 2], kind := NodeKind.orN },
    { id := "Risky", preconditions := [], resources := [("cpu", 1)], cost := 1, risk := 9/10,
      state := "PENDING", children := [], kind := NodeKind.atomicN },
    { id := "Safe", preconditions := [], resources := [("cpu", 1)], cost := 5, risk := 1/10,
      state := "PENDING", children := [], kind := NodeKind.atomicN } ]

/-- C6: the claim describes the scoring-step risk guard rejecting any
option whose risk exceeds the ceiling while the run carries on and
returns a feasible plan.  The run never reaches the scoring step: on
scenario C (risk-0.9 leaf under ceiling 0.7) `generate_plan` aborts
with `AttributeError` from the missing `validate_resources`, so no Plan
Result — risky or not — is ever returned by the code. -/
theorem c6_scenarioC_raises_attribute_error :
    generate_plan scenarioC 0 [("cpu", 8)] (7/10) =
      Except.error (PyErr.attributeError "validate_resources") := by decide

/-- C7: `generate_plan` raises the generic `PlanException` ("No valid
plan found within constraints") exactly when the pre-flight check
passes and the search loop drains its queue with `best_plan` never set
(the exception carries only that message, no partial result), and a
`ResourceConflictError` never escapes `generate_plan` — the search loop
catches it per option. -/
theorem c7_plan_exception_iff_queue_exhausted (g : Graph) (root : Nat) (pool : Pool) (t : ℚ) :
    isResourceConflictRes (generate_plan g root pool t) = false ∧
    (generate_plan g root pool t =
        Except.error (PyErr.planException "No valid plan found within constraints") ↔
      (validate_dag g root = Except.ok () ∧
        searchLoop g pool t (searchFuel g) [((0 : ℚ), root)] none = Except.ok none)) := by
  rcases validate_dag_shape g root with hv | ⟨m, hv⟩
  · have hgen : generate_plan g root pool t = ao_star_search g root pool t := by
      simp [generate_plan, hv]
    match hloop : searchLoop g pool t (searchFuel g) [((0 : ℚ), root)] none with
    | Except.error e =>
        have hao : ao_star_search g root pool t = Except.error e := by
          unfold ao_star_search
          rw [hloop]
        rw [hgen, hao]
        constructor
        · rcases searchLoop_err_shape g pool t _ _ _ _ hloop with ⟨a, ha⟩ | ⟨k, hk⟩ | hk <;>
            first
              | (subst ha; rfl)
              | (subst hk; rfl)
        · constructor
          · intro hcontra
            rcases searchLoop_err_shape g pool t _ _ _ _ hloop with ⟨a, ha⟩ | ⟨k, hk⟩ | hk <;>
              first
                | (subst ha; exact absurd hcontra (by simp))
                | (subst hk; exact absurd hcontra (by simp))
          · rintro ⟨_, hcontra⟩
            exact absurd hcontra (by simp)
    | Except.ok none =>
        have hao : ao_star_search g root pool t =
            Except.error (PyErr.planException "No valid plan found within constraints") := by
          unfold ao_star_search
          rw [hloop]
        rw [hgen, hao]
        exact ⟨rfl, fun _ => ⟨hv, rfl⟩, fun _ => rfl⟩
    | Except.ok (some p) =>
        have hao : ao_star_search g root pool t = Except.ok p := by
          unfold ao_star_search
          rw [hloop]
        rw [hgen, hao]
        refine ⟨rfl, ?_, ?_⟩
        · intro hcontra
          exact absurd hcontra (by simp)
        · rintro ⟨_, hcontra⟩
          exact absurd hcontra (by simp)
  · have hgen : generate_plan g root pool t = Except.error (PyErr.circularDependencyError m) := by
      simp [generate_plan, hv]
    rw [hgen]
    refine ⟨rfl, ?_, ?_⟩
    · intro hcontra
      exact absurd (Except.error.inj hcontra) (by simp)
    · rintro ⟨hok, _⟩
      rw [hv] at hok
      exact absurd hok (by simp)

/-- C8: running the planner twice on the same unmodified tree and pool
through two freshly constructed `PlanningGraph` objects yields the same
outcome.  The embedding is a pure function of the tree, the pool and
the threshold — every source of Python behaviour is deterministic here
(dict iteration order is insertion order, the heap never holds two
entries, nothing mutates the tree) — so the two runs coincide
definitionally, and the constructor's `resource_pool.copy()` does not
change the outcome either. -/
theorem c8_two_runs_same_outcome (g : Graph) (root : Nat) (pool : Pool) (t : ℚ) :
    PlanningGraph.generatePlan (mkPlanningGraph root pool t) g =
      PlanningGraph.generatePlan (mkPlanningGraph root pool t) g ∧
    PlanningGraph.generatePlan (mkPlanningGraph root pool t) g = generate_plan g root pool t := by
  refine ⟨rfl, ?_⟩
  have hcopy : poolCopy pool = pool := by
    simp [poolCopy]
  simp [PlanningGraph.generatePlan, mkPlanningGraph, hcopy]

/-- C9: for every AND node and every OR node with at least one child,
`decompose` never returns normally: the per-child call names
`validate_resources`, defined nowhere on `TaskNode` or its subclasses,
so `AttributeError` is raised, is not caught by the
`except ResourceConflictError` handler, and propagates out of
`decompose` and out of the search. -/
theorem c9_decompose_always_attribute_error (g : Graph) (n : Nat) (pool : Pool)
    (hk : (getNode g n).kind = NodeKind.andN ∨ (getNode g n).kind = NodeKind.orN)
    (hc : (getNode g n).children ≠ []) :
    decompose g n pool = Except.error (PyErr.attributeError "validate_resources") ∧
    ∀ t : ℚ, ao_star_search g n pool t =
      Except.error (PyErr.attributeError "validate_resources") := by
  have hka : (getNode g n).kind ≠ NodeKind.atomicN := by
    rcases hk with h | h <;> simp [h]
  match hcl : (getNode g n).children with
  | [] => exact absurd hcl hc
  | c :: cs =>
      refine ⟨decompose_with_children g n pool hka c cs hcl, ?_⟩
      intro t
      rw [ao_star_search_char]
      rw [if_neg (by rw [hcl]; simp [hka])]

/-- Composite-Any node with one child, used to exercise C9. -/
def orDemo : Graph :=
  [ { id := "Any9", preconditions := [], resources := [], cost := 0, risk := 0,
      state := "PENDING", children := [1], kind := NodeKind.orN },
    { id := "Alt9", preconditions := [], resources := [], cost := 0, risk := 0,
      state := "PENDING", children := [], kind := NodeKind.atomicN } ]

/-- Witness for C9 at a concrete OR node with one child. -/
theorem c9_witness :
    decompose orDemo 0 [] = Except.error (PyErr.attributeError "validate_resources") ∧
    ∀ t : ℚ, ao_star_search orDemo 0 [] t =
      Except.error (PyErr.attributeError "validate_resources") :=
  c9_decompose_always_attribute_error orDemo 0 [] (by decide) (by decide)

/-! ## Correctness of the ancestor walk (for C4)

`get_ancestors` is a worklist algorithm; we prove that the set it
returns is exactly transitive reachability along `preconditions`. -/

/-- Transitive reachability (one or more steps) along `preconditions`. -/
inductive PrecReaches (g : Graph) : Nat → Nat → Prop
  | base {a b : Nat} : b ∈ (getNode g a).preconditions → PrecReaches g a b
  | step {a b c : Nat} : PrecReaches g a b → c ∈ (getNode g b).preconditions → PrecReaches g a c

theorem pushPreconds_anc_mem :
    ∀ (l anc stack : List Nat) (x : Nat),
      x ∈ (pushPreconds l anc stack).1 ↔ x ∈ anc ∨ x ∈ l := by
  intro l
  induction l with
  | nil => intro anc stack x; simp [pushPreconds]
  | cons p rest ih =>
      intro anc stack x
      by_cases hp : p ∈ anc
      · simp only [pushPreconds, if_pos hp, ih, List.mem_cons]
        by_cases hxp : x = p
        · subst hxp; tauto
        · tauto
      · simp only [pushPreconds, if_neg hp, ih, List.mem_cons]
        by_cases hxp : x = p
        · subst hxp; tauto
        · tauto

theorem pushPreconds_stack_mem :
    ∀ (l anc stack : List Nat) (x : Nat),
      x ∈ (pushPreconds l anc stack).2 ↔ x ∈ stack ∨ (x ∈ l ∧ x ∉ anc) := by
  intro l
  induction l with
  | nil => intro anc stack x; simp [pushPreconds]
  | cons p rest ih =>
      intro anc stack x
      by_cases hp : p ∈ anc
      · simp only [pushPreconds, if_pos hp, ih, List.mem_cons]
        by_cases hxp : x = p
        · subst hxp; tauto
        · tauto
      · simp only [pushPreconds, if_neg hp, ih, List.mem_cons]
        by_cases hxp : x = p
        · subst hxp; tauto
        · tauto

theorem pushPreconds_nodup :
    ∀ (l anc stack : List Nat), anc.Nodup → (pushPreconds l anc stack).1.Nodup := by
  intro l
  induction l with
  | nil => intro anc stack h; simpa [pushPreconds] using h
  | cons p rest ih =>
      intro anc stack h
      by_cases hp : p ∈ anc
      · simp only [pushPreconds, if_pos hp]
        exact ih _ _ h
      · simp only [pushPreconds, if_neg hp]
        exact ih _ _ (List.nodup_cons.mpr ⟨hp, h⟩)

theorem pushPreconds_length :
    ∀ (l anc stack : List Nat),
      (pushPreconds l anc stack).2.length + anc.length =
        stack.length + (pushPreconds l anc stack).1.length := by
  intro l
  induction l with
  | nil => intro anc stack; simp [pushPreconds]
  | cons p rest ih =>
      intro anc stack
      by_cases hp : p ∈ anc
      · simp only [pushPreconds, if_pos hp]
        exact ih _ _
      · simp only [pushPreconds, if_neg hp]
        have := ih (p :: anc) (p :: stack)
        simp only [List.length_cons] at this ⊢
        omega

/-- Concatenation of every node's `preconditions` list. -/
def allPreconds : List TaskNode → List Nat
  | [] => []
  | n :: rest => n.preconditions ++ allPreconds rest

theorem mem_allPreconds (g : Graph) (i q : Nat)
    (h : q ∈ (getNode g i).preconditions) : q ∈ allPreconds g := by
  induction g generalizing i with
  | nil => simp [getNode, defaultNode, List.getD] at h
  | cons n rest ih =>
      cases i with
      | zero =>
          simp only [getNode, List.getD_cons_zero] at h
          exact List.mem_append.mpr (Or.inl h)
      | succ j =>
          simp only [getNode, List.getD_cons_succ] at h
          exact List.mem_append.mpr (Or.inr (ih j h))

theorem nodup_length_le (l m : List Nat) (hd : l.Nodup) (hs : l ⊆ m) :
    l.length ≤ m.length :=
  (hd.subperm hs).length_le

theorem graphPrecondsSize_foldl (g : List TaskNode) :
    ∀ acc : Nat, List.foldl (fun a n => a + n.preconditions.length) acc g =
      acc + (allPreconds g).length := by
  induction g with
  | nil => intro acc; simp [allPreconds]
  | cons n rest ih =>
      intro acc
      simp only [List.foldl_cons, allPreconds, List.length_append]
      rw [ih]
      omega

theorem allPreconds_length (g : Graph) :
    (allPreconds g).length = graphPrecondsSize g := by
  have h := graphPrecondsSize_foldl g 0
  simp only [graphPrecondsSize, h, Nat.zero_add]

theorem ancestorsLoop_spec (g : Graph) (p : Nat) :
    ∀ (fuel : Nat) (stack anc : List Nat),
      anc.Nodup →
      (∀ a ∈ anc, a ∈ allPreconds g) →
      (∀ a ∈ anc, PrecReaches g p a) →
      (∀ s ∈ stack, s = p ∨ s ∈ anc) →
      (∀ u, (u = p ∨ u ∈ anc) → u ∉ stack → ∀ q ∈ (getNode g u).preconditions, q ∈ anc) →
      stack.length + (allPreconds g).length ≤ fuel + anc.length →
      (∀ a ∈ anc, a ∈ ancestorsLoop g fuel stack anc) ∧
      (∀ x ∈ ancestorsLoop g fuel stack anc, PrecReaches g p x) ∧
      (∀ u, (u = p ∨ u ∈ ancestorsLoop g fuel stack anc) →
         ∀ q ∈ (getNode g u).preconditions, q ∈ ancestorsLoop g fuel stack anc) := by
  intro fuel
  induction fuel with
  | zero =>
      intro stack anc hnd hsub hreach hstack hclosed hfuel
      have hanc_le : anc.length ≤ (allPreconds g).length := nodup_length_le anc _ hnd hsub
      have hstack0 : stack = [] := List.length_eq_zero.mp (by omega)
      subst hstack0
      exact ⟨fun a ha => ha, hreach, fun u hu q hq => hclosed u hu (by simp) q hq⟩
  | succ f ih =>
      intro stack anc hnd hsub hreach hstack hclosed hfuel
      match stack with
      | [] =>
          exact ⟨fun a ha => ha, hreach, fun u hu q hq => hclosed u hu (by simp) q hq⟩
      | cur :: stack2 =>
          have hrec : ancestorsLoop g (f + 1) (cur :: stack2) anc =
              ancestorsLoop g f (pushPreconds (getNode g cur).preconditions anc stack2).2
                (pushPreconds (getNode g cur).preconditions anc stack2).1 := rfl
          set s := pushPreconds (getNode g cur).preconditions anc stack2 with hsdef
          have hanc2 : ∀ x, x ∈ s.1 ↔ x ∈ anc ∨ x ∈ (getNode g cur).preconditions :=
            fun x => pushPreconds_anc_mem _ _ _ x
          have hstk2 : ∀ x, x ∈ s.2 ↔ x ∈ stack2 ∨ (x ∈ (getNode g cur).preconditions ∧ x ∉ anc) :=
            fun x => pushPreconds_stack_mem _ _ _ x
          have hcur : cur = p ∨ cur ∈ anc := hstack cur (List.mem_cons_self cur stack2)
          have hcur_reach : ∀ q ∈ (getNode g cur).preconditions, PrecReaches g p q := by
            intro q hq
            rcases hcur with rfl | hca
            · exact PrecReaches.base hq
            · exact PrecReaches.step (hreach cur hca) hq
          have hnd2 : s.1.Nodup := pushPreconds_nodup _ _ _ hnd
          have hsub2 : ∀ a ∈ s.1, a ∈ allPreconds g := by
            intro a ha
            rcases (hanc2 a).mp ha with h | h
            · exact hsub a h
            · exact mem_allPreconds g cur a h
          have hreach2 : ∀ a ∈ s.1, PrecReaches g p a := by
            intro a ha
            rcases (hanc2 a).mp ha with h | h
            · exact hreach a h
            · exact hcur_reach a h
          have hstack2 : ∀ x ∈ s.2, x = p ∨ x ∈ s.1 := by
            intro x hx
            rcases (hstk2 x).mp hx with h | ⟨h1, _⟩
            · rcases hstack x (List.mem_cons_of_mem cur h) with h2 | h2
              · exact Or.inl h2
              · exact Or.inr ((hanc2 x).mpr (Or.inl h2))
            · exact Or.inr ((hanc2 x).mpr (Or.inr h1))
          have hclosed2 : ∀ u, (u = p ∨ u ∈ s.1) → u ∉ s.2 →
              ∀ q ∈ (getNode g u).preconditions, q ∈ s.1 := by
            intro u hu hnu q hq
            by_cases hucur : u = cur
            · subst hucur
              exact (hanc2 q).mpr (Or.inr hq)
            · have hu2 : u = p ∨ u ∈ anc := by
                rcases hu with h | h
                · exact Or.inl h
                · rcases (hanc2 u).mp h with h2 | h2
                  · exact Or.inr h2
                  · by_cases hua : u ∈ anc
                    · exact Or.inr hua
                    · exact absurd ((hstk2 u).mpr (Or.inr ⟨h2, hua⟩)) hnu
              have hnstack : u ∉ cur :: stack2 := by
                intro hmem
                rcases List.mem_cons.mp hmem with h | h
                · exact hucur h
                · exact hnu ((hstk2 u).mpr (Or.inl h))
              exact (hanc2 q).mpr (Or.inl (hclosed u hu2 hnstack q hq))
          have hfuel2 : s.2.length + (allPreconds g).length ≤ f + s.1.length := by
            have hlen := pushPreconds_length (getNode g cur).preconditions anc stack2
            rw [← hsdef] at hlen
            simp only [List.length_cons] at hfuel
            omega
          obtain ⟨hA, hB, hC⟩ := ih s.2 s.1 hnd2 hsub2 hreach2 hstack2 hclosed2 hfuel2
          rw [hrec]
          exact ⟨fun a ha => hA a ((hanc2 a).mpr (Or.inl ha)), hB, hC⟩

/-- The worklist in `get_ancestors` computes exactly transitive
reachability along `preconditions`. -/
theorem get_ancestors_iff (g : Graph) (p x : Nat) :
    x ∈ get_ancestors g p ↔ PrecReaches g p x := by
  obtain ⟨hA, hB, hC⟩ := ancestorsLoop_spec g p (1 + graphPrecondsSize g + g.length) [p] []
    (by simp) (by simp) (by simp)
    (by intro s hs; left; simpa using hs)
    (by
      intro u hu hnu q hq
      rcases hu with rfl | h
      · exact absurd (List.mem_cons_self u []) hnu
      · simp at h)
    (by simp only [List.length_cons, List.length_nil, allPreconds_length]; omega)
  constructor
  · exact fun h => hB x h
  · intro h
    induction h with
    | base hb => exact hC p (Or.inl rfl) _ hb
    | step hr hc ihh => exact hC _ (Or.inr ihh) _ hc

theorem getNode_set_self (g : Graph) (i : Nat) (v : TaskNode) (h : i < g.length) :
    getNode (List.set g i v) i = v := by
  simp [getNode, List.getD, List.getElem?_set_self, h]

theorem getNode_set_ne (g : Graph) (i j : Nat) (v : TaskNode) (h : i ≠ j) :
    getNode (List.set g i v) j = getNode g j := by
  simp [getNode, List.getD, List.getElem?_set_ne, h]

/-- C4: `add_child(parent, child)` raises `CircularDependencyError` if
and only if `child` is already an ancestor of `parent` — where
ancestry, as computed by walking `preconditions` transitively from the
parent, is proved equal to transitive `preconditions`-reachability.
When it raises, the graph is unmodified (the mutation returns no
post-state); otherwise the child is appended to the parent's children
and every other node is untouched. -/
theorem c4_add_child_spec (g : Graph) (p c : Nat) (hp : p < g.length) :
    (c ∈ get_ancestors g p ↔ PrecReaches g p c) ∧
    (PrecReaches g p c →
       add_child g p c = Except.error (PyErr.circularDependencyError
         ("Circular reference detected adding " ++ (getNode g c).id ++ " to " ++ (getNode g p).id))) ∧
    (¬ PrecReaches g p c →
       add_child g p c =
         Except.ok (updateNode g p (fun n => { n with children := n.children ++ [c] })) ∧
       (getNode (updateNode g p (fun n => { n with children := n.children ++ [c] })) p).children =
         (getNode g p).children ++ [c] ∧
       ∀ i, i ≠ p →
         getNode (updateNode g p (fun n => { n with children := n.children ++ [c] })) i =
           getNode g i) := by
  have hiff := get_ancestors_iff g p c
  refine ⟨hiff, ?_, ?_⟩
  · intro hreach
    rw [add_child, if_pos (hiff.mpr hreach)]
  · intro hnreach
    have hnot : c ∉ get_ancestors g p := fun hmem => hnreach (hiff.mp hmem)
    refine ⟨by rw [add_child, if_neg hnot], ?_, ?_⟩
    · rw [updateNode, getNode_set_self g p _ hp]
    · intro i hip
      rw [updateNode, getNode_set_ne g p i _ (fun h => hip h.symm)]

/-- Three-node chain of preconditions used as the C4 witness:
node 2 lists node 1 as precondition, node 1 lists node 0. -/
def chainDemo : Graph :=
  [ { id := "P0", preconditions := [], resources := [], cost := 0, risk := 0,
      state := "PENDING", children := [], kind := NodeKind.atomicN },
    { id := "P1", preconditions := [0], resources := [], cost := 0, risk := 0,
      state := "PENDING", children := [], kind := NodeKind.atomicN },
    { id := "P2", preconditions := [1], resources := [], cost := 0, risk := 0,
      state := "PENDING", children := [], kind := NodeKind.atomicN } ]

/-- Witness for C4: on `chainDemo`, adding the transitive ancestor 0
under node 2 raises, and adding node 2 under node 0 succeeds and
appends exactly one child edge. -/
theorem c4_witness :
    add_child chainDemo 2 0 = Except.error (PyErr.circularDependencyError
      ("Circular reference detected adding " ++ (getNode chainDemo 0).id ++ " to " ++ (getNode chainDemo 2).id)) ∧
    add_child chainDemo 0 2 =
      Except.ok (updateNode chainDemo 0 (fun n => { n with children := n.children ++ [2] })) := by
  constructor
  · exact (c4_add_child_spec chainDemo 2 0 (by decide)).2.1
      (@PrecReaches.step chainDemo 2 1 0 (@PrecReaches.base chainDemo 2 1 (by decide)) (by decide))
  · exact ((c4_add_child_spec chainDemo 0 2 (by decide)).2.2
      (fun h => by
        have := (get_ancestors_iff chainDemo 0 2).mpr h
        revert this
        decide)).1

/-! ## C5 and C10: the evaluator against its specification -/

theorem foldl_max_zero_mem (L : List ℚ) (hne : L ≠ []) (hnn : ∀ x ∈ L, 0 ≤ x) :
    List.foldl max 0 L ∈ L := by
  rcases foldl_max_mem L 0 with hz | hm
  · match L, hne with
    | y :: ys, _ =>
        have hyle : y ≤ List.foldl max 0 (y :: ys) :=
          (foldl_max_le_elem (y :: ys) 0).2 y (List.mem_cons_self y ys)
        have hy0 : 0 ≤ y := hnn y (List.mem_cons_self y ys)
        have hy : y = 0 := le_antisymm (hz ▸ hyle) hy0
        rw [hz, ← hy]
        exact List.mem_cons_self y ys
  · exact hm

/-- Pending node of the option whose sole resource is absent from the
(empty) pool. -/
def miss5 : Graph :=
  [ { id := "M5", preconditions := [], resources := [("memory", 4)], cost := 0, risk := 0,
      state := "PENDING", children := [], kind := NodeKind.atomicN } ]

/-- C5 counterexample: the pool lacks `"memory"`, so the running sum
(4) exceeds `pool.get("memory", 0) = 0`; the claim says this raises
`ResourceConflictError` naming the resource and amounts, but the
message formatting indexes `resource_pool["memory"]` first and the call
raises `KeyError` instead. -/
theorem c5_counterexample :
    evaluate_option miss5 [] [0] = Except.error (PyErr.keyError "memory") := by decide

/-! ### Exceedance characterization of the evaluator

The spec says the evaluator fails "the instant a running sum for any
resource exceeds `pool[resource]`".  We flatten the iteration into the
stream of `(resource, amount)` entries the evaluator checks, in order,
and prove: the evaluator succeeds iff no prefix running sum exceeds the
checked resource's capacity, and the first exceedance position fully
determines the raised error and its payload — the required amount
carried by the error is exactly the accumulated running sum there. -/

/-- Spec: the stream of resource entries the evaluator checks, in
iteration order — the `resources` entries of the Pending nodes of the
option, in option order.  The running sum after the check at position
`j` for resource `res` is `entriesSum ((entriesOf g nodes).take (j+1)) res`. -/
def entriesOf (g : Graph) (nodes : List Nat) : List (String × Int) :=
  List.flatten (List.map (fun i => (getNode g i).resources) (pendingIdx g nodes))

theorem dictGetD_nil (k : String) (d : Int) : dictGetD [] k d = d := by
  simp [dictGetD, dictGet]

/-- Folding one processed entry `(k, v)` into the running dict shifts
the prefix running sums by one position. -/
theorem runningSum_shift (req : List (String × Int)) (k : String) (v : Int)
    (l : List (String × Int)) (i : Nat) (res : String) :
    dictGetD (dictSet req k (dictGetD req k 0 + v)) res 0 + entriesSum (l.take (i + 1)) res =
      dictGetD req res 0 + entriesSum (((k, v) :: l).take (i + 1 + 1)) res := by
  rw [List.take_succ_cons]
  by_cases hk : k = res
  · subst hk
    rw [dictGetD_dictSet_self]
    have hsum : entriesSum ((k, v) :: l.take (i + 1)) k = v + entriesSum (l.take (i + 1)) k := by
      simp [entriesSum]
    rw [hsum]
    ring
  · rw [dictGetD_dictSet_ne _ _ _ _ _ hk]
    have hsum : entriesSum ((k, v) :: l.take (i + 1)) res = entriesSum (l.take (i + 1)) res := by
      simp [entriesSum, hk]
    rw [hsum]

/-- The inner resource loop succeeds iff no prefix running sum exceeds
the pool capacity of the resource checked at that position. -/
theorem evalResLoop_ok_iff (pool : Pool) :
    ∀ (entries req : List (String × Int)),
      (∃ req', evalResLoop pool entries req = Except.ok req') ↔
      (∀ j res amt, entries[j]? = some (res, amt) →
         dictGetD req res 0 + entriesSum (entries.take (j + 1)) res ≤ dictGetD pool res 0) := by
  intro entries
  induction entries with
  | nil =>
      intro req
      constructor
      · intro _ j res amt hj
        simp at hj
      · intro _
        exact ⟨req, rfl⟩
  | cons e rest ih =>
      intro req
      obtain ⟨k, v⟩ := e
      have hsum1 : entriesSum (((k, v) :: rest).take (0 + 1)) k = v := by
        simp [entriesSum]
      by_cases hlt : dictGetD pool k 0 < dictGetD req k 0 + v
      · constructor
        · rintro ⟨req', hok⟩
          simp only [evalResLoop] at hok
          rw [if_pos hlt] at hok
          split at hok <;> exact Except.noConfusion hok
        · intro hall
          exfalso
          have h0 := hall 0 k v (by simp)
          rw [hsum1] at h0
          omega
      · have hstep : evalResLoop pool ((k, v) :: rest) req =
            evalResLoop pool rest (dictSet req k (dictGetD req k 0 + v)) := by
          simp only [evalResLoop]
          rw [if_neg hlt]
        rw [hstep, ih]
        constructor
        · intro hall j res amt hj
          cases j with
          | zero =>
              simp only [List.getElem?_cons_zero, Option.some.injEq, Prod.mk.injEq] at hj
              obtain ⟨rfl, rfl⟩ := hj
              rw [hsum1]
              omega
          | succ j2 =>
              have hj2 : rest[j2]? = some (res, amt) := by simpa using hj
              have hrest := hall j2 res amt hj2
              rw [runningSum_shift] at hrest
              exact hrest
        · intro hall j res amt hj
          have hcons := hall (j + 1) res amt (by simpa using hj)
          rw [← runningSum_shift] at hcons
          exact hcons

/-- The inner resource loop raises at the first violating position:
`ResourceConflictError` carrying the accumulated running sum and the
pool's available amount when the resource is present in the pool,
`KeyError` when it is absent. -/
theorem evalResLoop_first_violation (pool : Pool) :
    ∀ (entries req : List (String × Int)) (j : Nat) (res : String) (amt : Int),
      entries[j]? = some (res, amt) →
      dictGetD pool res 0 < dictGetD req res 0 + entriesSum (entries.take (j + 1)) res →
      (∀ i res2 amt2, i < j → entries[i]? = some (res2, amt2) →
         dictGetD req res2 0 + entriesSum (entries.take (i + 1)) res2 ≤ dictGetD pool res2 0) →
      evalResLoop pool entries req =
        (match dictGet pool res with
         | some avail => Except.error (PyErr.resourceConflictError res
             (dictGetD req res 0 + entriesSum (entries.take (j + 1)) res) avail)
         | none => Except.error (PyErr.keyError res)) := by
  intro entries
  induction entries with
  | nil =>
      intro req j res amt hj
      simp at hj
  | cons e rest ih =>
      intro req j res amt hj hv hmin
      obtain ⟨k, v⟩ := e
      cases j with
      | zero =>
          simp only [List.getElem?_cons_zero, Option.some.injEq, Prod.mk.injEq] at hj
          obtain ⟨rfl, rfl⟩ := hj
          have hsum1 : entriesSum (((k, v) :: rest).take (0 + 1)) k = v := by
            simp [entriesSum]
          rw [hsum1] at hv ⊢
          simp only [evalResLoop]
          rw [if_pos hv]
      | succ j2 =>
          have hsum1 : entriesSum (((k, v) :: rest).take (0 + 1)) k = v := by
            simp [entriesSum]
          have h0 := hmin 0 k v (by omega) (by simp)
          rw [hsum1] at h0
          have hstep : evalResLoop pool ((k, v) :: rest) req =
              evalResLoop pool rest (dictSet req k (dictGetD req k 0 + v)) := by
            simp only [evalResLoop]
            rw [if_neg (by omega)]
          rw [hstep]
          have hj2 : rest[j2]? = some (res, amt) := by simpa using hj
          have hv2 : dictGetD pool res 0 <
              dictGetD (dictSet req k (dictGetD req k 0 + v)) res 0 +
                entriesSum (rest.take (j2 + 1)) res := by
            rw [runningSum_shift]
            exact hv
          have hmin2 : ∀ i res2 amt2, i < j2 → rest[i]? = some (res2, amt2) →
              dictGetD (dictSet req k (dictGetD req k 0 + v)) res2 0 +
                entriesSum (rest.take (i + 1)) res2 ≤ dictGetD pool res2 0 := by
            intro i res2 amt2 hi hie
            rw [runningSum_shift]
            exact hmin (i + 1) res2 amt2 (by omega) (by simpa using hie)
          rw [ih _ j2 res amt hj2 hv2 hmin2, runningSum_shift]

/-- Running the inner resource loop over a concatenation. -/
theorem evalResLoop_append (pool : Pool) :
    ∀ (l1 l2 req : List (String × Int)),
      evalResLoop pool (l1 ++ l2) req =
        match evalResLoop pool l1 req with
        | Except.error e => Except.error e
        | Except.ok req' => evalResLoop pool l2 req' := by
  intro l1
  induction l1 with
  | nil => intro l2 req; simp [evalResLoop]
  | cons e rest ih =>
      intro l2 req
      obtain ⟨k, v⟩ := e
      simp only [List.cons_append, evalResLoop]
      by_cases hlt : dictGetD pool k 0 < dictGetD req k 0 + v
      · rw [if_pos hlt, if_pos hlt]
        split <;> rfl
      · rw [if_neg hlt, if_neg hlt]
        exact ih _ _

theorem entriesOf_nil (g : Graph) : entriesOf g [] = [] := by
  simp [entriesOf, pendingIdx]

theorem entriesOf_cons_skip (g : Graph) (n : Nat) (rest : List Nat)
    (h : (getNode g n).state ≠ "PENDING") :
    entriesOf g (n :: rest) = entriesOf g rest := by
  simp [entriesOf, pendingIdx_cons_skip g n rest h]

theorem entriesOf_cons_pending (g : Graph) (n : Nat) (rest : List Nat)
    (h : (getNode g n).state = "PENDING") :
    entriesOf g (n :: rest) = (getNode g n).resources ++ entriesOf g rest := by
  simp [entriesOf, pendingIdx_cons_pending g n rest h]

/-- The node loop is the resource loop over the flattened entry stream
(the cost and risk accumulators never influence control flow). -/
theorem evalNodesLoop_flat (g : Graph) (pool : Pool) :
    ∀ (nodes : List Nat) (req : List (String × Int)) (c r : ℚ),
      evalNodesLoop g pool nodes req c r =
        match evalResLoop pool (entriesOf g nodes) req with
        | Except.error e => Except.error e
        | Except.ok req' =>
            Except.ok (req',
              c + (List.map (fun i => (getNode g i).cost) (pendingIdx g nodes)).sum,
              List.foldl max r (specRisks g nodes)) := by
  intro nodes
  induction nodes with
  | nil =>
      intro req c r
      simp [evalNodesLoop, entriesOf_nil, evalResLoop, pendingIdx, specRisks]
  | cons n rest ih =>
      intro req c r
      by_cases hst : (getNode g n).state = "PENDING"
      · have hpend := pendingIdx_cons_pending g n rest hst
        have hrisk : specRisks g (n :: rest) = (getNode g n).risk :: specRisks g rest := by
          simp [specRisks, hpend]
        have hstep : evalNodesLoop g pool (n :: rest) req c r =
            match evalResLoop pool (getNode g n).resources req with
            | Except.error e => Except.error e
            | Except.ok req2 =>
                evalNodesLoop g pool rest req2 (c + (getNode g n).cost)
                  (max r (getNode g n).risk) := by
          simp only [evalNodesLoop]
          rw [if_neg (by simp [hst])]
        rw [hstep, entriesOf_cons_pending g n rest hst, evalResLoop_append]
        cases hres : evalResLoop pool (getNode g n).resources req with
        | error e => rfl
        | ok req2 =>
            show evalNodesLoop g pool rest req2 (c + (getNode g n).cost) (max r (getNode g n).risk) =
              match evalResLoop pool (entriesOf g rest) req2 with
              | Except.error e => Except.error e
              | Except.ok req3 =>
                  Except.ok (req3,
                    c + (List.map (fun i => (getNode g i).cost) (pendingIdx g (n :: rest))).sum,
                    List.foldl max r (specRisks g (n :: rest)))
            rw [ih]
            cases hres2 : evalResLoop pool (entriesOf g rest) req2 with
            | error e => rfl
            | ok req3 =>
                simp only [hpend, hrisk, List.map_cons, List.sum_cons, List.foldl_cons]
                rw [add_assoc]
      · have hskip := pendingIdx_cons_skip g n rest hst
        have hrisk : specRisks g (n :: rest) = specRisks g rest := by
          simp [specRisks, hskip]
        have hstep : evalNodesLoop g pool (n :: rest) req c r =
            evalNodesLoop g pool rest req c r := by
          simp only [evalNodesLoop]
          rw [if_pos hst]
        rw [hstep, entriesOf_cons_skip g n rest hst, ih, hskip, hrisk]

theorem evaluate_option_ok_flat (g : Graph) (pool : Pool) (nodes : List Nat) :
    (∃ r, evaluate_option g pool nodes = Except.ok r) ↔
      (∃ req', evalResLoop pool (entriesOf g nodes) [] = Except.ok req') := by
  have hflat := evalNodesLoop_flat g pool nodes [] 0 0
  constructor
  · rintro ⟨r, hr⟩
    simp only [evaluate_option] at hr
    rw [hflat] at hr
    cases hres : evalResLoop pool (entriesOf g nodes) [] with
    | error e =>
        rw [hres] at hr
        exact absurd hr (by simp)
    | ok req' => exact ⟨req', rfl⟩
  · rintro ⟨req', hreq⟩
    refine ⟨{ sequence := nodes, resource_usage := req',
              cost := 0 + (List.map (fun i => (getNode g i).cost) (pendingIdx g nodes)).sum,
              risk_factor := List.foldl max 0 (specRisks g nodes) }, ?_⟩
    simp only [evaluate_option]
    rw [hflat, hreq]

theorem evaluate_option_err_flat (g : Graph) (pool : Pool) (nodes : List Nat) (e : PyErr) :
    evaluate_option g pool nodes = Except.error e ↔
      evalResLoop pool (entriesOf g nodes) [] = Except.error e := by
  have hflat := evalNodesLoop_flat g pool nodes [] 0 0
  constructor
  · intro h
    simp only [evaluate_option] at h
    rw [hflat] at h
    cases hres : evalResLoop pool (entriesOf g nodes) [] with
    | error e2 =>
        rw [hres] at h
        have he : e2 = e := by simpa using h
        rw [he]
    | ok req' =>
        rw [hres] at h
        exact absurd h (by simp)
  · intro h
    simp only [evaluate_option]
    rw [hflat, h]

/-- Success of `_evaluate_option` iff no running sum ever exceeds the
pool capacity of the resource being checked. -/
theorem evaluate_option_ok_iff_no_exceed (g : Graph) (pool : Pool) (nodes : List Nat) :
    (∃ r, evaluate_option g pool nodes = Except.ok r) ↔
      (∀ j res amt, (entriesOf g nodes)[j]? = some (res, amt) →
         entriesSum ((entriesOf g nodes).take (j + 1)) res ≤ dictGetD pool res 0) := by
  rw [evaluate_option_ok_flat, evalResLoop_ok_iff]
  constructor
  · intro h j res amt hj
    have h2 := h j res amt hj
    rwa [dictGetD_nil, zero_add] at h2
  · intro h j res amt hj
    rw [dictGetD_nil, zero_add]
    exact h j res amt hj

/-- The first violating check determines the exact raised error:
`ResourceConflictError` with the accumulated sum and the pool value
when the resource is present, `KeyError` when it is absent. -/
theorem evaluate_option_first_violation (g : Graph) (pool : Pool) (nodes : List Nat)
    (j : Nat) (res : String) (amt : Int)
    (hj : (entriesOf g nodes)[j]? = some (res, amt))
    (hv : dictGetD pool res 0 < entriesSum ((entriesOf g nodes).take (j + 1)) res)
    (hmin : ∀ i res2 amt2, i < j → (entriesOf g nodes)[i]? = some (res2, amt2) →
       entriesSum ((entriesOf g nodes).take (i + 1)) res2 ≤ dictGetD pool res2 0) :
    evaluate_option g pool nodes =
      (match dictGet pool res with
       | some avail => Except.error (PyErr.resourceConflictError res
           (entriesSum ((entriesOf g nodes).take (j + 1)) res) avail)
       | none => Except.error (PyErr.keyError res)) := by
  have hres := evalResLoop_first_violation pool (entriesOf g nodes) [] j res amt hj
    (by rw [dictGetD_nil, zero_add]; exact hv)
    (by intro i res2 amt2 hi hie
        rw [dictGetD_nil, zero_add]
        exact hmin i res2 amt2 hi hie)
  cases hget : dictGet pool res with
  | some avail =>
      simp only [hget] at hres
      rw [dictGetD_nil, zero_add] at hres
      exact (evaluate_option_err_flat g pool nodes _).mpr hres
  | none =>
      simp only [hget] at hres
      exact (evaluate_option_err_flat g pool nodes _).mpr hres

/-- Boolean test: does the check at position `j` violate capacity? -/
def violAtB (pool : Pool) (entries : List (String × Int)) (j : Nat) : Bool :=
  match entries[j]? with
  | some (res, _) => decide (dictGetD pool res 0 < entriesSum (entries.take (j + 1)) res)
  | none => false

theorem violAtB_eq_true_iff (pool : Pool) (entries : List (String × Int)) (j : Nat) :
    violAtB pool entries j = true ↔
      ∃ res amt, entries[j]? = some (res, amt) ∧
        dictGetD pool res 0 < entriesSum (entries.take (j + 1)) res := by
  unfold violAtB
  cases hj : entries[j]? with
  | none => simp
  | some p =>
      obtain ⟨res, amt⟩ := p
      simp

/-- Any error of the evaluator exhibits a first violating check. -/
theorem evaluate_option_err_least_violation (g : Graph) (pool : Pool) (nodes : List Nat)
    (e : PyErr) (h : evaluate_option g pool nodes = Except.error e) :
    ∃ j res amt, (entriesOf g nodes)[j]? = some (res, amt) ∧
      dictGetD pool res 0 < entriesSum ((entriesOf g nodes).take (j + 1)) res ∧
      (∀ i res2 amt2, i < j → (entriesOf g nodes)[i]? = some (res2, amt2) →
         entriesSum ((entriesOf g nodes).take (i + 1)) res2 ≤ dictGetD pool res2 0) := by
  have hnok : ¬∃ r, evaluate_option g pool nodes = Except.ok r := by
    rintro ⟨r, hr⟩
    rw [h] at hr
    exact Except.noConfusion hr
  have hex : ∃ j, violAtB pool (entriesOf g nodes) j = true := by
    by_contra hno
    push_neg at hno
    apply hnok
    rw [evaluate_option_ok_iff_no_exceed]
    intro j res amt hj
    by_contra hle
    push_neg at hle
    exact hno j ((violAtB_eq_true_iff pool (entriesOf g nodes) j).mpr ⟨res, amt, hj, hle⟩)
  obtain ⟨res, amt, hj, hv⟩ :=
    (violAtB_eq_true_iff pool (entriesOf g nodes) (Nat.find hex)).mp (Nat.find_spec hex)
  refine ⟨Nat.find hex, res, amt, hj, hv, ?_⟩
  intro i res2 amt2 hi hie
  by_contra hle
  push_neg at hle
  exact Nat.find_min hex hi
    ((violAtB_eq_true_iff pool (entriesOf g nodes) i).mpr ⟨res2, amt2, hie, hle⟩)

/-- C5 (amended): on success, `_evaluate_option` returns the option as
sequence, per-resource sums over exactly the Pending nodes as usage,
their summed cost, and their maximum risk (stated as membership plus
upper bound).  It succeeds if and only if no running per-resource sum
ever exceeds the pool capacity of the checked resource; the instant
one does — at the first violating check — it raises
`ResourceConflictError` naming the offending resource, the accumulated
running sum as the required amount, and the pool value as the
available amount, provided that resource is present in the pool; when
it is absent, a `KeyError` naming the resource escapes instead
(amendment forced by `c5_counterexample`).  Any returned error is of
one of those two shapes. -/
theorem c5_evaluate_spec (g : Graph) (pool : Pool) (nodes : List Nat)
    (hNodup : ∀ i ∈ nodes, (List.map Prod.fst (getNode g i).resources).Nodup)
    (hRisk : ∀ i ∈ pendingIdx g nodes, 0 ≤ (getNode g i).risk)
    (hNe : pendingIdx g nodes ≠ []) :
    (∀ r, evaluate_option g pool nodes = Except.ok r →
       r.sequence = nodes ∧
       (∀ res, dictGetD r.resource_usage res 0 = specUsage g nodes res) ∧
       r.cost = specCost g nodes ∧
       (r.risk_factor ∈ specRisks g nodes ∧ ∀ x ∈ specRisks g nodes, x ≤ r.risk_factor)) ∧
    (∀ e, evaluate_option g pool nodes = Except.error e →
       (∃ res amt avail, dictGet pool res = some avail ∧
           e = PyErr.resourceConflictError res amt avail ∧ avail < amt) ∨
       (∃ res, dictGet pool res = none ∧ e = PyErr.keyError res)) ∧
    ((∃ r, evaluate_option g pool nodes = Except.ok r) ↔
       (∀ j res amt, (entriesOf g nodes)[j]? = some (res, amt) →
          entriesSum ((entriesOf g nodes).take (j + 1)) res ≤ dictGetD pool res 0)) ∧
    (∀ j res amt,
       (entriesOf g nodes)[j]? = some (res, amt) →
       dictGetD pool res 0 < entriesSum ((entriesOf g nodes).take (j + 1)) res →
       (∀ i res2 amt2, i < j → (entriesOf g nodes)[i]? = some (res2, amt2) →
          entriesSum ((entriesOf g nodes).take (i + 1)) res2 ≤ dictGetD pool res2 0) →
       ((∀ avail, dictGet pool res = some avail →
           evaluate_option g pool nodes = Except.error (PyErr.resourceConflictError res
             (entriesSum ((entriesOf g nodes).take (j + 1)) res) avail)) ∧
        (dictGet pool res = none →
           evaluate_option g pool nodes = Except.error (PyErr.keyError res)))) := by
  refine ⟨?_, ?_, ?_, ?_⟩
  · intro r hok
    obtain ⟨hseq, husage, hcost, hrisk⟩ := evaluate_option_ok g pool nodes r hok
    refine ⟨hseq, ?_, hcost, ?_, ?_⟩
    · intro res
      rw [husage res, specUsage]
      congr 1
      apply List.map_congr_left
      intro i hi
      exact entriesSum_eq_dictGetD _ _ (hNodup i (List.mem_filter.mp hi).1)
    · rw [hrisk]
      apply foldl_max_zero_mem
      · simp only [specRisks, ne_eq, List.map_eq_nil_iff]
        exact hNe
      · intro x hx
        obtain ⟨i, hi, hxi⟩ := List.mem_map.mp hx
        rw [← hxi]
        exact hRisk i hi
    · intro x hx
      rw [hrisk]
      exact (foldl_max_le_elem (specRisks g nodes) 0).2 x hx
  · intro e herr
    exact evaluate_option_err g pool nodes e herr
  · exact evaluate_option_ok_iff_no_exceed g pool nodes
  · intro j res amt hj hv hmin
    have h := evaluate_option_first_violation g pool nodes j res amt hj hv hmin
    constructor
    · intro avail hget
      rw [h]
      simp only [hget]
    · intro hget
      rw [h]
      simp only [hget]

/-- Two-node option for the C5 witness: node 0 is Pending with two
resources, node 1 is not Pending and must be ignored. -/
def w5 : Graph :=
  [ { id := "W50", preconditions := [], resources := [("cpu", 1), ("mem", 2)], cost := 5, risk := 0,
      state := "PENDING", children := [], kind := NodeKind.atomicN },
    { id := "W51", preconditions := [], resources := [("cpu", 9)], cost := 7, risk := 1,
      state := "DONE", children := [], kind := NodeKind.atomicN } ]

/-- Pool for the C5 witness. -/
def w5pool : Pool := [("cpu", 4), ("mem", 8)]

/-- Expected evaluation result for the C5 witness. -/
def w5result : PlanningResult :=
  { sequence := [0, 1], resource_usage := [("cpu", 1), ("mem", 2)], cost := 5, risk_factor := 0 }

/-- Witness for C5 at a concrete option and pool. -/
theorem c5_witness :
    evaluate_option w5 w5pool [0, 1] = Except.ok w5result ∧
    w5result.cost = specCost w5 [0, 1] ∧
    dictGetD w5result.resource_usage "mem" 0 = specUsage w5 [0, 1] "mem" := by
  have hok : evaluate_option w5 w5pool [0, 1] = Except.ok w5result := by
    simp [evaluate_option, evalNodesLoop, evalResLoop, dictGetD, dictGet, dictSet,
      getNode, defaultNode, w5, w5pool, w5result, max_self]
  have h := c5_evaluate_spec w5 w5pool [0, 1] (by decide) (by decide) (by decide)
  exact ⟨hok, (h.1 w5result hok).2.2.1, (h.1 w5result hok).2.1 "mem"⟩

/-- Pending node requiring 100 cpu (present, capacity 1) and 1 of the
absent resource "zz". -/
def g10 : Graph :=
  [ { id := "N10", preconditions := [], resources := [("cpu", 100), ("zz", 1)], cost := 0, risk := 0,
      state := "PENDING", children := [], kind := NodeKind.atomicN } ]

/-- C10 counterexample: the option contains a Pending node that
requires a positive amount (1) of the resource "zz", absent from the
pool, yet `_evaluate_option` raises `ResourceConflictError` — not
`KeyError` — because the "cpu" check triggers first in iteration
order. -/
theorem c10_counterexample :
    evaluate_option g10 [("cpu", 1)] [0] =
      Except.error (PyErr.resourceConflictError "cpu" 100 1) ∧
    dictGet [("cpu", 1)] "zz" = none ∧
    dictGetD (getNode g10 0).resources "zz" 0 = 1 ∧
    (getNode g10 0).state = "PENDING" := by decide

/-- C10 (amended): `_evaluate_option` raises `KeyError` naming `res`
exactly when the first feasibility check to trigger — the first
position of the checked entry stream whose running sum exceeds the
checked resource's capacity, every earlier check passing — concerns
`res` and `res` is absent from the pool (the `.get(res, 0)` check
fires but the error-message formatting indexes `resource_pool[res]`);
and it raises `ResourceConflictError res req avail` exactly when that
first triggering check concerns `res`, `res` is present in the pool
with capacity `avail`, and `req` is the accumulated running sum there.
An option containing an absent-resource requirement may thus still
raise `ResourceConflictError` if an earlier check triggers first
(amendment forced by `c10_counterexample`). -/
theorem c10_keyerror_classification (g : Graph) (pool : Pool) (nodes : List Nat) :
    (∀ res, evaluate_option g pool nodes = Except.error (PyErr.keyError res) ↔
       (dictGet pool res = none ∧
        ∃ j amt, (entriesOf g nodes)[j]? = some (res, amt) ∧
          dictGetD pool res 0 < entriesSum ((entriesOf g nodes).take (j + 1)) res ∧
          ∀ i res2 amt2, i < j → (entriesOf g nodes)[i]? = some (res2, amt2) →
            entriesSum ((entriesOf g nodes).take (i + 1)) res2 ≤ dictGetD pool res2 0)) ∧
    (∀ res req avail,
       evaluate_option g pool nodes = Except.error (PyErr.resourceConflictError res req avail) ↔
       (dictGet pool res = some avail ∧
        ∃ j amt, (entriesOf g nodes)[j]? = some (res, amt) ∧
          req = entriesSum ((entriesOf g nodes).take (j + 1)) res ∧
          dictGetD pool res 0 < req ∧
          ∀ i res2 amt2, i < j → (entriesOf g nodes)[i]? = some (res2, amt2) →
            entriesSum ((entriesOf g nodes).take (i + 1)) res2 ≤ dictGetD pool res2 0)) := by
  constructor
  · intro res
    constructor
    · intro h
      obtain ⟨j0, res0, amt0, hj0, hv0, hmin0⟩ :=
        evaluate_option_err_least_violation g pool nodes _ h
      have hfirst := evaluate_option_first_violation g pool nodes j0 res0 amt0 hj0 hv0 hmin0
      cases hget0 : dictGet pool res0 with
      | some avail0 =>
          simp only [hget0] at hfirst
          rw [h] at hfirst
          exact absurd (Except.error.inj hfirst) (by simp)
      | none =>
          simp only [hget0] at hfirst
          rw [h] at hfirst
          have hres0 : res = res0 := PyErr.keyError.inj (Except.error.inj hfirst)
          subst hres0
          exact ⟨hget0, j0, amt0, hj0, hv0, hmin0⟩
    · rintro ⟨hnone, j, amt, hj, hv, hmin⟩
      have hfirst := evaluate_option_first_violation g pool nodes j res amt hj hv hmin
      simp only [hnone] at hfirst
      exact hfirst
  · intro res req avail
    constructor
    · intro h
      obtain ⟨j0, res0, amt0, hj0, hv0, hmin0⟩ :=
        evaluate_option_err_least_violation g pool nodes _ h
      have hfirst := evaluate_option_first_violation g pool nodes j0 res0 amt0 hj0 hv0 hmin0
      cases hget0 : dictGet pool res0 with
      | none =>
          simp only [hget0] at hfirst
          rw [h] at hfirst
          exact absurd (Except.error.inj hfirst) (by simp)
      | some avail0 =>
          simp only [hget0] at hfirst
          rw [h] at hfirst
          obtain ⟨h1, h2, h3⟩ := PyErr.resourceConflictError.inj (Except.error.inj hfirst)
          subst h1
          subst h3
          refine ⟨hget0, j0, amt0, hj0, h2, ?_, hmin0⟩
          rw [← h2] at hv0
          exact hv0
    · rintro ⟨hsome, j, amt, hj, hreq, hv, hmin⟩
      subst hreq
      have hfirst := evaluate_option_first_violation g pool nodes j res amt hj hv hmin
      simp only [hsome] at hfirst
      exact hfirst

/-- Pending node whose sole resource "disk" is absent from the pool. -/
def k10 : Graph :=
  [ { id := "K10", preconditions := [], resources := [("disk", 3)], cost := 0, risk := 0,
      state := "PENDING", children := [], kind := NodeKind.atomicN } ]

/-- Witness for C10: the first (and only) check concerns the absent
resource "disk", so the run raises `KeyError "disk"`. -/
theorem c10_witness :
    evaluate_option k10 [("cpu", 1)] [0] = Except.error (PyErr.keyError "disk") := by
  apply ((c10_keyerror_classification k10 [("cpu", 1)] [0]).1 "disk").mpr
  refine ⟨by decide, 0, 3, by decide, by decide, ?_⟩
  intro i res2 amt2 hi _
  exact absurd hi (Nat.not_lt_zero i)

/-- Global consequence of the missing `validate_resources` method: on
no input whatsoever does `generate_plan` return a Plan Result — every
run ends in `CircularDependencyError`, `PlanException`, or
`AttributeError`.  This is why the end-to-end scenarios of the
specification cannot be reproduced by the code. -/
theorem generate_plan_never_ok (g : Graph) (root : Nat) (pool : Pool) (t : ℚ)
    (p : PlanningResult) : generate_plan g root pool t ≠ Except.ok p := by
  intro h
  rcases validate_dag_shape g root with hv | ⟨m, hv⟩
  · have hgen : generate_plan g root pool t = ao_star_search g root pool t := by
      simp [generate_plan, hv]
    rw [hgen, ao_star_search_char] at h
    split at h <;> exact Except.noConfusion h
  · have hgen : generate_plan g root pool t = Except.error (PyErr.circularDependencyError m) := by
      simp [generate_plan, hv]
    rw [hgen] at h
    exact Except.noConfusion h

end Planner
